import Mathlib

/-!
Verification of the offline-todo reconciliation core.

Shallow embedding of:
* the remote store sync handler (`src/backend/server.js`, `POST /api/sync`),
* the client conflict detector/resolver (`src/frontend/src/utils/conflictResolver.ts`),
* the sync engine push/pull/fullSync (`useSync` hook),
* the transport retry policy (`src/frontend/src/utils/retryUtils.ts`).

Timestamps are modelled as naturals (milliseconds); a timestamp of 0 plays the
role of an absent/falsy date in the JS source.  Record stores (the Mongo
collection keyed by the unique `id` field, and the Dexie table) are modelled as
association lists of records, with `findOne` returning the first record with a
matching id and `saveRec` replacing the first match in place (appending when no
record with that id exists) — which is the behaviour of `findOne`/`save`/
`updateOne(..., upsert)` on a collection whose ids are unique.
-/

set_option autoImplicit false

namespace OfflineTodo

/-- The Task record (frontend `types.ts` / backend mongoose schema).
The `userId`/`userName` author fields are carried by the source but never
inspected by any of the reconciliation code verified here, so they are
omitted. -/
structure Todo where
  id : String
  text : String
  completed : Bool
  version : Nat
  synced : Bool
  deleted : Bool
  createdAt : Nat
  updatedAt : Nat
deriving Repr, DecidableEq

/-- Operation tag of a sync batch entry (`type: "CREATE"|"UPDATE"|"DELETE"`). -/
inductive OpType
  | CREATE
  | UPDATE
  | DELETE
deriving Repr, DecidableEq

/-- One entry of the `operations` array posted to `/api/sync`. -/
structure SyncOp where
  type : OpType
  todo : Todo
deriving Repr, DecidableEq

/-- `Todo.findOne with id i` on the remote collection: first record with id `i`. -/
def findOne (store : List Todo) (i : String) : Option Todo :=
  store.find? (fun r => r.id == i)

/-- Upsert keyed by `id`: replace the first record carrying `r.id`, or append
`r` when no record with that id exists.  Models mongoose `save` on an existing
document, `updateOne(..., upsert:true)` and the Dexie `table.put`. -/
def saveRec : List Todo → Todo → List Todo
  | [], r => [r]
  | x :: xs, r => if x.id == r.id then r :: xs else x :: saveRec xs r

/-- Accumulated state while the server processes one `/api/sync` batch:
the collection plus the `results` and `conflicts` arrays of the response. -/
structure SyncState where
  store : List Todo
  results : List Todo
  conflicts : List SyncOp
deriving Repr, DecidableEq

/-- One iteration of the server loop over `operations` (server.js lines 61-138).
`now` is the value of `new Date()` during the request. -/
def applyOp (now : Nat) (st : SyncState) (op : SyncOp) : SyncState :=
  match op.type with
  | .CREATE =>
    match findOne st.store op.todo.id with
    | some existing =>
      if existing.version ≥ op.todo.version then
        { st with results := st.results ++ [existing] }
      else
        { st with conflicts := st.conflicts ++ [op] }
    | none =>
      { st with store := saveRec st.store op.todo
                results := st.results ++ [op.todo] }
  | .UPDATE =>
    match findOne st.store op.todo.id with
    | some existing =>
      if existing.version > op.todo.version then
        { st with conflicts := st.conflicts ++ [op] }
      else
        { st with store := saveRec st.store { op.todo with updatedAt := now }
                  results := st.results ++ [op.todo] }
    | none =>
      { st with store := saveRec st.store { op.todo with updatedAt := now }
                results := st.results ++ [op.todo] }
  | .DELETE =>
    match findOne st.store op.todo.id with
    | some existing =>
      let newVersion :=
        if op.todo.version ≠ 0 ∧ op.todo.version > existing.version then
          op.todo.version
        else
          existing.version + 1
      let tomb := { existing with deleted := true, version := newVersion, updatedAt := now }
      { st with store := saveRec st.store tomb
                results := st.results ++ [tomb] }
    | none =>
      let tomb :=
        { op.todo with deleted := true
                       createdAt := if op.todo.createdAt ≠ 0 then op.todo.createdAt else now
                       updatedAt := now
                       version := if op.todo.version ≠ 0 then op.todo.version else 1 }
      { st with store := saveRec st.store tomb
                results := st.results ++ [tomb] }

/-- The whole `POST /api/sync` handler body on a batch of operations. -/
def processSync (now : Nat) (store : List Todo) (ops : List SyncOp) : SyncState :=
  ops.foldl (applyOp now) ⟨store, [], []⟩

/-- A whole lifetime of the remote store: a sequence of `/api/sync` batches,
each processed at its own request time. -/
def processBatches (store : List Todo) : List (Nat × List SyncOp) → List Todo
  | [] => store
  | (now, ops) :: rest => processBatches (processSync now store ops).store rest

/-- Store component of one server loop iteration, viewed as a function of the
store alone (the `results`/`conflicts` accumulators never influence the store
update). -/
def applyOpStore (now : Nat) (s : List Todo) (op : SyncOp) : List Todo :=
  (applyOp now ⟨s, [], []⟩ op).store

/-! ## Client conflict detector and resolver (`conflictResolver.ts`) -/

/-- Classification tag of a detected conflict. -/
inductive ConflictType
  | deletion
  | content
  | version
deriving Repr, DecidableEq

/-- A detected conflict (`EnhancedConflictInfo`); the wall-clock
`conflictTimestamp` field is dropped (never read by the code under claim). -/
structure ConflictInfo where
  todoId : String
  localVersion : Todo
  serverVersion : Todo
  conflictType : ConflictType
  localUser : Option String
  serverUser : Option String
deriving Repr, DecidableEq

/-- Body of the `detectConflicts` loop for one local/server pair
(conflictResolver.ts lines 35-72): at most one conflict per local record. -/
def conflictFor (localTodo serverTodo : Todo) (localUser serverUser : Option String) :
    Option ConflictInfo :=
  if localTodo.version ≠ serverTodo.version ∧ ¬ localTodo.synced then
    if localTodo.deleted ∧ ¬ serverTodo.deleted then
      some ⟨localTodo.id, localTodo, serverTodo, .deletion, localUser, serverUser⟩
    else if localTodo.text ≠ serverTodo.text ∨ localTodo.completed ≠ serverTodo.completed then
      some ⟨localTodo.id, localTodo, serverTodo, .content, localUser, serverUser⟩
    else if localTodo.version < serverTodo.version then
      some ⟨localTodo.id, localTodo, serverTodo, .version, localUser, serverUser⟩
    else
      none
  else
    none

/-- `detectConflicts(localTodos, serverTodos, localUser, serverUser)`:
iterate over the local records, look up the matching server record, and push
the per-pair conflict (if any) in order. -/
def detectConflicts (localTodos serverTodos : List Todo)
    (localUser serverUser : Option String) : List ConflictInfo :=
  match localTodos with
  | [] => []
  | localTodo :: rest =>
    let tail := detectConflicts rest serverTodos localUser serverUser
    match serverTodos.find? (fun t => t.id == localTodo.id) with
    | none => tail
    | some serverTodo =>
      match conflictFor localTodo serverTodo localUser serverUser with
      | some c => c :: tail
      | none => tail

/-- Resolution strategies (`ConflictResolutionStrategy`). -/
inductive Strategy
  | serverWins
  | clientWins
  | lastWriteWins
  | manual
deriving Repr, DecidableEq

/-- `resolveConflict(conflict, strategy)` (conflictResolver.ts lines 81-118);
`updatedAt?.getTime() ?? 0` is total in the model since timestamps are `Nat`. -/
def resolveConflict (conflict : ConflictInfo) (strategy : Strategy) : Todo :=
  match strategy with
  | .serverWins => { conflict.serverVersion with synced := true }
  | .clientWins =>
    { conflict.localVersion with
      version := conflict.serverVersion.version + 1
      synced := false }
  | .lastWriteWins =>
    let localTime := conflict.localVersion.updatedAt
    let serverTime := conflict.serverVersion.updatedAt
    if localTime > serverTime then
      { conflict.localVersion with
        version := conflict.serverVersion.version + 1
        synced := false }
    else
      { conflict.serverVersion with synced := true }
  | .manual => conflict.localVersion

/-- Spec-side per-pair classification, written from the specification's words
(with the version branch as the code forces it to be amended): no conflict for
a synced local copy or equal versions; otherwise deletion when the local copy
is tombstoned and the remote is not; else content when text or completed
differ; else version, but only when the local version is strictly below the
remote one.  Used to state the refinement between `detectConflicts` and the
spec's description of `detect`. -/
def specClassify (l s : Todo) : Option ConflictType :=
  if l.synced then none
  else if l.version = s.version then none
  else if l.deleted ∧ ¬ s.deleted then some .deletion
  else if l.text ≠ s.text ∨ l.completed ≠ s.completed then some .content
  else if l.version < s.version then some .version
  else none

/-! ## Offline queue and sync engine (`offlineQueue.ts`, the `useSync` hook) -/

/-- One IndexedDB offline-queue record (`OfflineOp` in offlineQueue.ts). -/
structure QueueEntry where
  id : String
  op : SyncOp
  timestamp : Nat
  retries : Nat
deriving Repr, DecidableEq

/-- The `/api/sync` response fields the client reads. -/
structure SyncResponse where
  results : List Todo
  conflicts : List SyncOp
deriving Repr, DecidableEq

/-- The operation batch `syncToServer` builds from the unsynced local records:
`DELETE` for tombstones, `CREATE` for version 1, `UPDATE` otherwise
(ISO-date serialization is the identity in the `Nat` timestamp model). -/
def buildOperations (unsyncedTodos : List Todo) : List SyncOp :=
  unsyncedTodos.map (fun todo =>
    ⟨if todo.deleted then .DELETE else if todo.version = 1 then .CREATE else .UPDATE, todo⟩)

/-- `table.delete id` on the local Dexie table: drop the record keyed `i`. -/
def deleteById : List Todo → String → List Todo
  | [], _ => []
  | x :: xs, i => if x.id == i then xs else x :: deleteById xs i

/-- Application of one server result record to the local table inside
`syncToServer`: a tombstone deletes the local record, any other record is
upserted re-dated and marked synced.  (The source also probes two legacy
response shapes — `deleted` as the string "true" and `deleted` as a bare id
string — that cannot occur in the typed model.) -/
def applyServerResult (now : Nat) (tbl : List Todo) (r : Todo) : List Todo :=
  if r.deleted then
    deleteById tbl r.id
  else
    saveRec tbl
      { r with createdAt := if r.createdAt ≠ 0 then r.createdAt else now
               updatedAt := if r.updatedAt ≠ 0 then r.updatedAt else now
               synced := true }

/-- Result of one `syncToServer` invocation: the local table, the offline
queue, and whether a sync error was recorded. -/
structure PushOutcome where
  table : List Todo
  queue : List QueueEntry
  syncError : Bool
deriving Repr, DecidableEq

/-- `syncToServer` from the `useSync` hook.  `online` is `navigator.onLine`,
`inProgress` the value of `syncInProgressRef.current` at entry; `transport`
is the (already retry-wrapped) `syncTodos` call, returning `none` on a
transport failure.  The guard `!navigator.onLine || syncInProgressRef.current`
returns without touching anything; after a successful transport call the
server results are applied and then `offlineQueue.clearAllOperations()`
empties the whole queue; on transport failure table and queue are untouched
and the error state is set. -/
def syncToServer (online inProgress : Bool) (now : Nat) (table : List Todo)
    (queue : List QueueEntry) (transport : List SyncOp → Option SyncResponse) :
    PushOutcome :=
  if ¬ online ∨ inProgress then
    ⟨table, queue, false⟩
  else
    let unsyncedTodos := table.filter (fun t => ¬ t.synced)
    if unsyncedTodos.length = 0 then
      ⟨table, queue, false⟩
    else
      let operations := buildOperations unsyncedTodos
      match transport operations with
      | none => ⟨table, queue, true⟩
      | some result =>
        ⟨result.results.foldl (applyServerResult now) table, [], false⟩

/-- Date-normalisation + `synced: true` applied to every fetched server record
before it is put into the local table (`fetchFromServer`). -/
def transformServer (now : Nat) (serverTodo : Todo) : Todo :=
  { serverTodo with
    createdAt := if serverTodo.createdAt ≠ 0 then serverTodo.createdAt else now
    updatedAt := if serverTodo.updatedAt ≠ 0 then serverTodo.updatedAt else now
    synced := true }

/-- Observable outcome of one `fetchFromServer` invocation. -/
inductive FetchOutcome
  | skippedOffline
  | fetchFailed
  | conflictsFound (conflicts : List ConflictInfo)
  | applied (table : List Todo)
deriving Repr, DecidableEq

/-- `fetchFromServer(forceServerWins)` from the `useSync` hook.  The function
guards only on `navigator.onLine`; the in-flight flag `inProgress` is NOT read
anywhere in its body (it is a parameter here only to record that fact).
`fetched` is the outcome of the retry-wrapped `fetchTodos` transport call.
When not forcing and unsynced local records exist, conflicts are detected
first and, if any, reported without writing; otherwise the force branch clears
the table and repopulates it from the server records, and the merge branch
overwrites only records whose local copy is synced (or absent). -/
def fetchFromServer (online : Bool) (_inProgress : Bool) (forceServerWins : Bool)
    (localTodos : List Todo) (fetched : Option (List Todo))
    (currentUserName : String) (now : Nat) : FetchOutcome :=
  if ¬ online then
    .skippedOffline
  else
    match fetched with
    | none => .fetchFailed
    | some serverTodos =>
      let hasUnsyncedLocal := localTodos.any (fun t => ¬ t.synced)
      let detected :=
        if ¬ forceServerWins ∧ hasUnsyncedLocal then
          detectConflicts localTodos serverTodos (some currentUserName) (some "Server")
        else []
      if detected.length > 0 then
        .conflictsFound detected
      else if forceServerWins then
        .applied (serverTodos.foldl (fun tbl s => saveRec tbl (transformServer now s)) [])
      else
        .applied (serverTodos.foldl (fun tbl s =>
          match localTodos.find? (fun t => t.id == s.id) with
          | none => saveRec tbl (transformServer now s)
          | some localTodo =>
            if localTodo.synced then saveRec tbl (transformServer now s) else tbl)
          localTodos)

/-- `fullSync(forceFetch)` from the `useSync` hook: skipped (returns `none`)
when offline or a sync is in flight, otherwise `syncToServer` followed by
`fetchFromServer` on the resulting table. -/
def fullSync (online inProgress : Bool) (forceFetch : Bool) (now : Nat)
    (table : List Todo) (queue : List QueueEntry)
    (transport : List SyncOp → Option SyncResponse)
    (fetched : Option (List Todo)) (currentUserName : String) :
    Option (PushOutcome × FetchOutcome) :=
  if ¬ online ∨ inProgress then
    none
  else
    let p := syncToServer online inProgress now table queue transport
    some (p, fetchFromServer online inProgress forceFetch p.table fetched currentUserName now)

/-! ## Transport retry policy (`retryUtils.ts`) -/

/-- The retry loop of `retryWithBackoff`, recursing on the number of retries
still allowed (`remaining = maxRetries - attempt`; the source's
`attempt === maxRetries` exit test is `remaining = 0` here).  `fn n` is the
outcome of the n-th attempt (0-based); `rand n` models the `Math.random()`
draw before the n-th retry sleep, so the slept delay is
`min(initialDelay * mult ^ attempt, maxDelay) * (0.8 + rand n * 0.4)`.
Returns the final outcome together with the list of slept (jittered) delays,
one per retry actually performed. -/
def retryAux {ε α : Type} (fn : Nat → Except ε α) (rand : Nat → ℚ)
    (initialDelay maxDelay mult : Nat) :
    Nat → Nat → Except ε α × List ℚ
  | attempt, remaining =>
    match fn attempt with
    | .ok a => (.ok a, [])
    | .error e =>
      match remaining with
      | 0 => (.error e, [])
      | r + 1 =>
        let delay : Nat := min (initialDelay * mult ^ attempt) maxDelay
        let jitter : ℚ := (delay : ℚ) * (4/5 + rand attempt * (2/5))
        let rest := retryAux fn rand initialDelay maxDelay mult (attempt + 1) r
        (rest.1, jitter :: rest.2)

/-- `retryWithBackoff(fn, {maxRetries, initialDelay, maxDelay,
backoffMultiplier})`: the loop runs attempts 0 .. maxRetries inclusive. -/
def retryWithBackoff {ε α : Type} (fn : Nat → Except ε α) (rand : Nat → ℚ)
    (maxRetries initialDelay maxDelay mult : Nat) : Except ε α × List ℚ :=
  retryAux fn rand initialDelay maxDelay mult 0 maxRetries

/-- `fetchTodos` retry parameters: maxRetries 3, initialDelay 1000, defaults
maxDelay 30000 and multiplier 2. -/
def fetchTodosRetry {ε : Type} (fn : Nat → Except ε (List Todo)) (rand : Nat → ℚ) :
    Except ε (List Todo) × List ℚ :=
  retryWithBackoff fn rand 3 1000 30000 2

/-- `syncTodos` retry parameters: maxRetries 3, initialDelay 2000, defaults
maxDelay 30000 and multiplier 2 (the empty-batch short-circuit returns
without any transport call and is not modelled here). -/
def syncTodosRetry {ε : Type} (fn : Nat → Except ε SyncResponse) (rand : Nat → ℚ) :
    Except ε SyncResponse × List ℚ :=
  retryWithBackoff fn rand 3 2000 30000 2

/-! ## Store lemmas -/

theorem findOne_id (s : List Todo) (x : String) (r : Todo) (h : findOne s x = some r) :
    r.id = x := by
  induction s with
  | nil => simp [findOne] at h
  | cons y ys ih =>
    by_cases hy : y.id = x
    · rw [findOne, List.find?_cons_of_pos _ (by simp [hy])] at h
      cases h; exact hy
    · rw [findOne, List.find?_cons_of_neg _ (by simp [hy])] at h
      exact ih h

theorem findOne_saveRec_self (s : List Todo) (r : Todo) :
    findOne (saveRec s r) r.id = some r := by
  induction s with
  | nil => simp [saveRec, findOne]
  | cons y ys ih =>
    by_cases hy : y.id = r.id
    · simp [saveRec, hy, findOne]
    · rw [saveRec, if_neg (by simp [hy]), findOne,
        List.find?_cons_of_neg _ (by simp [hy])]
      exact ih

theorem findOne_saveRec_ne (s : List Todo) (r : Todo) (x : String) (h : r.id ≠ x) :
    findOne (saveRec s r) x = findOne s x := by
  induction s with
  | nil => simp [saveRec, findOne, h]
  | cons y ys ih =>
    by_cases hy : y.id = r.id
    · rw [saveRec, if_pos (by simp [hy]), findOne, List.find?_cons_of_neg _ (by simp [h]),
        findOne, List.find?_cons_of_neg _ (by simp [hy ▸ h])]
    · rw [saveRec, if_neg (by simp [hy])]
      by_cases hx : y.id = x
      · rw [findOne, List.find?_cons_of_pos _ (by simp [hx]), findOne,
          List.find?_cons_of_pos _ (by simp [hx])]
      · rw [findOne, List.find?_cons_of_neg _ (by simp [hx]), findOne,
          List.find?_cons_of_neg _ (by simp [hx])]
        exact ih

theorem findOne_saveRec_self_of_id (s : List Todo) (r : Todo) (x : String)
    (h : r.id = x) : findOne (saveRec s r) x = some r :=
  h ▸ findOne_saveRec_self s r

theorem saveRec_of_findOne_self (s : List Todo) (r : Todo) (h : findOne s r.id = some r) :
    saveRec s r = s := by
  induction s with
  | nil => simp [findOne] at h
  | cons y ys ih =>
    by_cases hy : y.id = r.id
    · rw [findOne, List.find?_cons_of_pos _ (by simp [hy])] at h
      cases h
      simp [saveRec]
    · rw [findOne, List.find?_cons_of_neg _ (by simp [hy])] at h
      rw [saveRec, if_neg (by simp [hy]), ih h]

theorem mem_saveRec (s : List Todo) (r t : Todo) (h : t ∈ saveRec s r) :
    t ∈ s ∨ t = r := by
  induction s with
  | nil => simp [saveRec] at h; right; exact h
  | cons y ys ih =>
    by_cases hy : y.id = r.id
    · rw [saveRec, if_pos (by simp [hy])] at h
      rcases List.mem_cons.mp h with h | h
      · right; exact h
      · left; exact List.mem_cons_of_mem _ h
    · rw [saveRec, if_neg (by simp [hy])] at h
      rcases List.mem_cons.mp h with h | h
      · left; exact h ▸ List.mem_cons_self _ _
      · rcases ih h with h | h
        · left; exact List.mem_cons_of_mem _ h
        · right; exact h

theorem findOne_none (s : List Todo) (x : String) (h : ∀ r ∈ s, r.id ≠ x) :
    findOne s x = none := by
  induction s with
  | nil => rfl
  | cons y ys ih =>
    rw [findOne, List.find?_cons_of_neg _ (by simp [h y (List.mem_cons_self _ _)])]
    exact ih fun r hr => h r (List.mem_cons_of_mem _ hr)

theorem findOne_saveRec_isSome (s : List Todo) (r : Todo) (x : String)
    (h : (findOne s x).isSome) : (findOne (saveRec s r) x).isSome := by
  by_cases hx : r.id = x
  · subst hx
    rw [findOne_saveRec_self s r]
    rfl
  · rwa [findOne_saveRec_ne s r x hx]

/-! ## C1: server handling of an UPDATE whose version equals the stored one -/

/-- C1 counterexample: with the remote store holding t1 at version 3 (client A's
write) and client B sending an UPDATE for t1 also at version 3 with different
text, the server applies B's write — the conflicts list stays empty and the
stored text becomes B's — contradicting the claim that an equal-version UPDATE
is flagged as a version conflict rather than applied. -/
theorem update_equal_version_applied_cex :
    (processSync 99 [⟨"t1", "A-text", false, 3, true, false, 10, 20⟩]
        [⟨.UPDATE, ⟨"t1", "B-text", false, 3, false, false, 10, 25⟩⟩]).conflicts = [] ∧
    (processSync 99 [⟨"t1", "A-text", false, 3, true, false, 10, 20⟩]
        [⟨.UPDATE, ⟨"t1", "B-text", false, 3, false, false, 10, 25⟩⟩]).store =
      [⟨"t1", "B-text", false, 3, false, false, 10, 99⟩] := by
  exact ⟨rfl, rfl⟩

/-- C1 (amended): a `/sync` UPDATE on an id present in the store is flagged as
a version conflict exactly when the stored version is strictly greater than the
incoming one; when the stored version is less than or equal to the incoming
version — in particular when they are equal — the operation is applied
(the record is overwritten with the incoming payload, re-dated to the request
time) and reported as a success, not a conflict. -/
theorem update_conflict_iff_server_strictly_newer (now : Nat) (st : SyncState)
    (op : SyncOp) (e : Todo) (ht : op.type = .UPDATE)
    (he : findOne st.store op.todo.id = some e) :
    (e.version > op.todo.version →
      applyOp now st op = { st with conflicts := st.conflicts ++ [op] }) ∧
    (e.version ≤ op.todo.version →
      applyOp now st op =
        { st with store := saveRec st.store { op.todo with updatedAt := now }
                  results := st.results ++ [op.todo] }) := by
  obtain ⟨ty, todo⟩ := op
  cases ht
  constructor <;> intro hv
  · simp [applyOp, he, hv]
  · simp [applyOp, he, Nat.not_lt.mpr hv]

/-- Witness for C1 at a concrete input: stored version 3, incoming version 3,
the update is applied. -/
theorem update_conflict_iff_server_strictly_newer_witness :
    applyOp 99 ⟨[⟨"t1", "A-text", false, 3, true, false, 10, 20⟩], [], []⟩
        ⟨.UPDATE, ⟨"t1", "B-text", false, 3, false, false, 10, 25⟩⟩ =
      ⟨[⟨"t1", "B-text", false, 3, false, false, 10, 99⟩],
       [⟨"t1", "B-text", false, 3, false, false, 10, 25⟩], []⟩ :=
  (update_conflict_iff_server_strictly_newer 99
      ⟨[⟨"t1", "A-text", false, 3, true, false, 10, 20⟩], [], []⟩
      ⟨.UPDATE, ⟨"t1", "B-text", false, 3, false, false, 10, 25⟩⟩
      ⟨"t1", "A-text", false, 3, true, false, 10, 20⟩
      rfl (by decide)).2 (by decide)

/-! ## C2: outbox clearing after a push -/

/-- C2 counterexample: the local table holds one unsynced record and the queue
holds two entries; the transport succeeds but the server reports the (only)
transmitted operation as a conflict (empty results, every operation echoed in
conflicts).  `syncToServer` still clears the whole queue: both the entry whose
operation was reported as a conflict and the entry that was never part of the
transmitted batch are removed, contradicting the claim that such entries
remain. -/
theorem queue_cleared_despite_conflicts_cex :
    (syncToServer true false 99
        [⟨"t1", "mine", false, 3, false, false, 1, 2⟩]
        [⟨"e1", ⟨.UPDATE, ⟨"t1", "mine", false, 3, false, false, 1, 2⟩⟩, 1, 0⟩,
         ⟨"e2", ⟨.CREATE, ⟨"t2", "other", false, 1, false, false, 1, 2⟩⟩, 2, 0⟩]
        (fun ops => some ⟨[], ops⟩)).queue = [] ∧
    (fun (ops : List SyncOp) => some (⟨[], ops⟩ : SyncResponse))
        (buildOperations
          (([⟨"t1", "mine", false, 3, false, false, 1, 2⟩] : List Todo).filter
            (fun t => ¬ t.synced))) =
      some ⟨[], [⟨.UPDATE, ⟨"t1", "mine", false, 3, false, false, 1, 2⟩⟩]⟩ := by
  exact ⟨rfl, rfl⟩

/-- C2 (amended): `syncToServer` does not acknowledge queue entries one by one.
The queue is left untouched exactly when the invocation is skipped (offline or
in flight), when there is nothing unsynced to push, or when the transport call
fails; after any successful transport response the entire queue is cleared,
regardless of which operations the server reported as conflicts and regardless
of whether an entry's operation was part of the transmitted batch. -/
theorem syncToServer_queue_clearing (online inProgress : Bool) (now : Nat)
    (table : List Todo) (queue : List QueueEntry)
    (transport : List SyncOp → Option SyncResponse) :
    (syncToServer online inProgress now table queue transport).queue =
      if ¬ online ∨ inProgress then queue
      else if (table.filter (fun t => ¬ t.synced)).length = 0 then queue
      else
        match transport (buildOperations (table.filter (fun t => ¬ t.synced))) with
        | none => queue
        | some _ => [] := by
  rw [syncToServer]
  split
  · rfl
  · dsimp only
    split
    · rfl
    · rcases h : transport (buildOperations (table.filter (fun t => ¬ t.synced))) with _ | r <;>
        simp [h]

/-! ## C3: single-flight guarantee -/

/-- C3 counterexample: a pull invoked while a sync is in flight (in-flight flag
true) is not a no-op — `fetchFromServer` never consults the flag, so it still
performs the network fetch and rewrites the Local Store: here the resulting
table differs from the local table it started from. -/
theorem pull_runs_while_sync_in_flight_cex :
    fetchFromServer true true true [⟨"mine", "pending", false, 1, false, false, 1, 2⟩]
        (some [⟨"t1", "x", false, 4, false, false, 1, 3⟩]) "Me" 99 =
      .applied [⟨"t1", "x", false, 4, true, false, 1, 3⟩] ∧
    ([⟨"t1", "x", false, 4, true, false, 1, 3⟩] : List Todo) ≠
      [⟨"mine", "pending", false, 1, false, false, 1, 2⟩] := by
  exact ⟨rfl, by decide⟩

/-- C3 (amended): the in-flight flag guards only `syncToServer` (push) and
`fullSync`: invoked while a sync is in flight they are no-ops — the table and
queue are returned untouched, no transport call is consulted, and no error is
recorded.  `fetchFromServer` (pull) has no in-flight guard at all: its result
is identical whether or not a sync is in flight. -/
theorem inflight_guard_push_fullSync (online : Bool) (force : Bool) (now : Nat)
    (table : List Todo) (queue : List QueueEntry)
    (transport : List SyncOp → Option SyncResponse) (fetched : Option (List Todo))
    (user : String) (localTodos : List Todo) :
    syncToServer online true now table queue transport = ⟨table, queue, false⟩ ∧
    fullSync online true force now table queue transport fetched user = none ∧
    fetchFromServer online true force localTodos fetched user now =
      fetchFromServer online false force localTodos fetched user now := by
  refine ⟨?_, ?_, rfl⟩
  · simp [syncToServer]
  · simp [fullSync]

/-! ## C4: deletion conflict and local-wins tombstone -/

/-- C4 counterexample: a local tombstone at version 4 against a remote copy of
the same id at version 4 not deleted yields NO conflict at all —
`detectConflicts` requires the versions to differ — contradicting the claim
that this pair is classified as a deletion conflict. -/
theorem equal_version_tombstone_no_conflict_cex :
    detectConflicts [⟨"t1", "x", false, 4, false, true, 1, 2⟩]
      [⟨"t1", "x", false, 4, false, false, 1, 3⟩] (some "Me") (some "Server") = [] := by
  rfl

/-- Helper: a DELETE is always accepted by the server: it never adds a
conflict, and afterwards the record stored under the operation's id is a
tombstone. -/
theorem applyOp_delete (now : Nat) (st : SyncState) (todo : Todo) :
    (applyOp now st ⟨.DELETE, todo⟩).conflicts = st.conflicts ∧
    Option.map Todo.deleted (findOne (applyOp now st ⟨.DELETE, todo⟩).store todo.id) =
      some true := by
  rcases hf : findOne st.store todo.id with _ | ex
  · refine ⟨by simp [applyOp, hf], ?_⟩
    simp only [applyOp, hf]
    rw [findOne_saveRec_self_of_id st.store
      { todo with deleted := true
                  createdAt := if todo.createdAt ≠ 0 then todo.createdAt else now
                  updatedAt := now
                  version := if todo.version ≠ 0 then todo.version else 1 }
      todo.id rfl]
    rfl
  · refine ⟨by simp [applyOp, hf], ?_⟩
    simp only [applyOp, hf]
    rw [findOne_saveRec_self_of_id st.store
      { ex with deleted := true
                version := if todo.version ≠ 0 ∧ todo.version > ex.version then todo.version
                  else ex.version + 1
                updatedAt := now }
      todo.id (findOne_id st.store todo.id ex hf)]
    rfl

/-- C4 (amended): for a local unsynced tombstone whose version differs from the
remote copy's (in scenario C the local tombstone is at version 5, the remote
update at version 4, not deleted), detect classifies the pair as a deletion
conflict; resolving with local-wins (client-wins) yields the local tombstone
with version `remote.version + 1` and `synced = false`, still `deleted = true`;
and the server accepts the resulting DELETE unconditionally: it never records a
conflict for a DELETE and the store afterwards holds a tombstone under that
id. -/
theorem deletion_conflict_localwins_tombstone (l r : Todo) (lu su : Option String)
    (now : Nat) (st : SyncState) (hid : l.id = r.id) (hs : ¬ l.synced)
    (hld : l.deleted) (hrd : ¬ r.deleted) (hv : l.version ≠ r.version) :
    detectConflicts [l] [r] lu su = [⟨l.id, l, r, .deletion, lu, su⟩] ∧
    resolveConflict ⟨l.id, l, r, .deletion, lu, su⟩ .clientWins =
      { l with version := r.version + 1, synced := false } ∧
    ({ l with version := r.version + 1, synced := false } : Todo).deleted = true ∧
    (applyOp now st ⟨.DELETE, { l with version := r.version + 1, synced := false }⟩).conflicts =
      st.conflicts ∧
    Option.map Todo.deleted
        (findOne
          (applyOp now st ⟨.DELETE, { l with version := r.version + 1, synced := false }⟩).store
          l.id) =
      some true := by
  refine ⟨?_, rfl, by simpa using hld, (applyOp_delete now st _).1, (applyOp_delete now st _).2⟩
  simp [detectConflicts, conflictFor, hid, hs, hld, hrd, hv]

/-- Witness for C4 at scenario C's concrete input: local tombstone version 5,
remote version 4 not deleted, resolved to a version-5 unsynced tombstone that
the server turns into a stored tombstone. -/
theorem deletion_conflict_localwins_tombstone_witness :
    detectConflicts [⟨"t1", "x", false, 5, false, true, 1, 9⟩]
        [⟨"t1", "x", false, 4, false, false, 1, 3⟩] (some "Me") (some "Server") =
      [⟨"t1", ⟨"t1", "x", false, 5, false, true, 1, 9⟩,
        ⟨"t1", "x", false, 4, false, false, 1, 3⟩, .deletion, some "Me", some "Server"⟩] ∧
    resolveConflict
        ⟨"t1", ⟨"t1", "x", false, 5, false, true, 1, 9⟩,
          ⟨"t1", "x", false, 4, false, false, 1, 3⟩, .deletion, some "Me", some "Server"⟩
        .clientWins = ⟨"t1", "x", false, 5, false, true, 1, 9⟩ ∧
    (applyOp 50 ⟨[⟨"t1", "x", false, 4, false, false, 1, 3⟩], [], []⟩
        ⟨.DELETE, ⟨"t1", "x", false, 5, false, true, 1, 9⟩⟩).conflicts = [] ∧
    Option.map Todo.deleted
        (findOne
          (applyOp 50 ⟨[⟨"t1", "x", false, 4, false, false, 1, 3⟩], [], []⟩
            ⟨.DELETE, ⟨"t1", "x", false, 5, false, true, 1, 9⟩⟩).store "t1") =
      some true := by
  have h := deletion_conflict_localwins_tombstone
    ⟨"t1", "x", false, 5, false, true, 1, 9⟩ ⟨"t1", "x", false, 4, false, false, 1, 3⟩
    (some "Me") (some "Server") 50 ⟨[⟨"t1", "x", false, 4, false, false, 1, 3⟩], [], []⟩
    rfl (by decide) (by decide) (by decide) (by decide)
  exact ⟨h.1, h.2.1, h.2.2.2.1, h.2.2.2.2⟩

/-! ## C5: conflict classification -/

/-- C5 counterexample: an unsynced local copy whose version (3) is strictly
greater than the remote version (2) with identical visible content yields NO
conflict — contradicting the claim that any remaining version-number mismatch
with identical content is classified as a version conflict. -/
theorem greater_local_version_no_conflict_cex :
    detectConflicts [⟨"a", "x", false, 3, false, false, 1, 2⟩]
      [⟨"a", "x", false, 2, false, false, 1, 2⟩] none none = [] := by
  rfl

/-- Helper: the per-pair loop body of `detectConflicts` agrees with the
spec-side classifier. -/
theorem conflictFor_eq_specClassify (l s : Todo) (lu su : Option String) :
    conflictFor l s lu su = (specClassify l s).map (fun ct => ⟨l.id, l, s, ct, lu, su⟩) := by
  obtain ⟨i, tx, c, v, sy, d, ca, ua⟩ := l
  obtain ⟨i2, tx2, c2, v2, sy2, d2, ca2, ua2⟩ := s
  cases sy <;> cases d <;> cases d2 <;>
    by_cases h2 : v = v2 <;>
    by_cases h4 : tx ≠ tx2 ∨ c ≠ c2 <;>
    by_cases h5 : v < v2 <;>
    simp [conflictFor, specClassify, h2, h4, h5]

/-- C5 (amended): `detectConflicts` classifies exactly as the spec describes,
with the version branch corrected: for every local record, look up the first
remote record with the same id (ids present only locally give no conflict); a
synced local copy or equal versions give no conflict; otherwise the pair is
classified deletion when the local copy is tombstoned and the remote is not,
else content when text or completed differ, else version — but only when the
local version is strictly less than the remote one; a strictly greater local
version with identical visible content yields no conflict. -/
theorem detectConflicts_classification (localTodos serverTodos : List Todo)
    (lu su : Option String) :
    detectConflicts localTodos serverTodos lu su =
      localTodos.filterMap (fun l =>
        match serverTodos.find? (fun t => t.id == l.id) with
        | none => none
        | some s => (specClassify l s).map (fun ct => ⟨l.id, l, s, ct, lu, su⟩)) := by
  induction localTodos with
  | nil => rfl
  | cons l rest ih =>
    rcases hf : serverTodos.find? (fun t => t.id == l.id) with _ | s
    · simp only [detectConflicts, List.filterMap_cons, hf]
      exact ih
    · simp only [detectConflicts, List.filterMap_cons, hf, conflictFor_eq_specClassify]
      rcases hc : specClassify l s with _ | ct <;> simp [hc, ih]

/-! ## C6: idempotence of pushing the same batch twice -/

/-- Helper: the store component of `applyOp` depends only on the store
component of the state. -/
theorem applyOp_store_congr (now : Nat) (op : SyncOp) (st st' : SyncState)
    (h : st.store = st'.store) :
    (applyOp now st op).store = (applyOp now st' op).store := by
  obtain ⟨ty, todo⟩ := op
  cases ty <;> simp only [applyOp, h] <;>
    rcases hf : findOne st'.store todo.id with _ | ex <;>
    simp only [hf] <;> (try split) <;> simp [h]

/-- Helper: the store after a batch is a fold of `applyOpStore` over it. -/
theorem foldl_applyOp_store (now : Nat) :
    ∀ (ops : List SyncOp) (st : SyncState),
      (ops.foldl (applyOp now) st).store = ops.foldl (applyOpStore now) st.store
  | [], _ => rfl
  | op :: rest, st => by
    rw [List.foldl_cons, List.foldl_cons, foldl_applyOp_store now rest]
    congr 1
    exact applyOp_store_congr now op _ ⟨st.store, [], []⟩ rfl

/-- Helper: `processSync`, restricted to the store. -/
theorem processSync_store (now : Nat) (store : List Todo) (ops : List SyncOp) :
    (processSync now store ops).store = ops.foldl (applyOpStore now) store :=
  foldl_applyOp_store now ops ⟨store, [], []⟩

/-- Helper: an operation only ever writes the record carrying its own id. -/
theorem applyOpStore_untouched (now : Nat) (s : List Todo) (op : SyncOp) (x : String)
    (h : op.todo.id ≠ x) : findOne (applyOpStore now s op) x = findOne s x := by
  obtain ⟨ty, todo⟩ := op
  cases ty
  · rcases hf : findOne s todo.id with _ | ex
    · simp only [applyOpStore, applyOp, hf]
      exact findOne_saveRec_ne s todo x h
    · simp only [applyOpStore, applyOp, hf]
      split <;> rfl
  · rcases hf : findOne s todo.id with _ | ex
    · simp only [applyOpStore, applyOp, hf]
      exact findOne_saveRec_ne s _ x h
    · simp only [applyOpStore, applyOp, hf]
      split
      · rfl
      · exact findOne_saveRec_ne s _ x h
  · rcases hf : findOne s todo.id with _ | ex
    · simp only [applyOpStore, applyOp, hf]
      exact findOne_saveRec_ne s _ x h
    · simp only [applyOpStore, applyOp, hf]
      refine findOne_saveRec_ne s _ x ?_
      intro he
      exact h ((findOne_id s todo.id ex hf) ▸ he)

/-- Helper: a batch touching none of the ids equal to `x` leaves the record
under `x` unchanged. -/
theorem foldl_applyOpStore_untouched (now : Nat) (x : String) :
    ∀ (ops : List SyncOp) (s : List Todo), (∀ o ∈ ops, o.todo.id ≠ x) →
      findOne (ops.foldl (applyOpStore now) s) x = findOne s x
  | [], _, _ => rfl
  | op :: rest, s, h => by
    rw [List.foldl_cons,
      foldl_applyOpStore_untouched now x rest _ (fun o ho => h o (List.mem_cons_of_mem _ ho)),
      applyOpStore_untouched now s op x (h op (List.mem_cons_self _ _))]

/-- Helper: replaying a CREATE or UPDATE against a store whose record under the
operation's id is the one the first application left behind is a no-op on the
store. -/
theorem applyOpStore_replay (now : Nat) (s F : List Todo) (op : SyncOp)
    (hty : op.type ≠ .DELETE)
    (hF : findOne F op.todo.id = findOne (applyOpStore now s op) op.todo.id) :
    applyOpStore now F op = F := by
  obtain ⟨ty, todo⟩ := op
  cases ty
  · -- CREATE
    rcases hs : findOne s todo.id with _ | ex
    · have hw : findOne F todo.id = some todo := by
        rw [hF]
        simp only [applyOpStore, applyOp, hs]
        exact findOne_saveRec_self s todo
      simp [applyOpStore, applyOp, hw]
    · have hstore : applyOpStore now s ⟨.CREATE, todo⟩ = s := by
        simp only [applyOpStore, applyOp, hs]
        split <;> rfl
      rw [hstore, hs] at hF
      by_cases hv : todo.version ≤ ex.version <;> simp [applyOpStore, applyOp, hF, hv]
  · -- UPDATE
    rcases hs : findOne s todo.id with _ | ex
    · have hw : findOne F todo.id = some { todo with updatedAt := now } := by
        rw [hF]
        simp only [applyOpStore, applyOp, hs]
        exact findOne_saveRec_self_of_id s _ todo.id rfl
      simp only [applyOpStore, applyOp, hw]
      rw [if_neg (lt_irrefl todo.version)]
      exact saveRec_of_findOne_self F _ hw
    · by_cases hv : ex.version > todo.version
      · have hstore : applyOpStore now s ⟨.UPDATE, todo⟩ = s := by
          simp [applyOpStore, applyOp, hs, hv]
        rw [hstore, hs] at hF
        simp [applyOpStore, applyOp, hF, hv]
      · have hw : findOne F todo.id = some { todo with updatedAt := now } := by
          rw [hF]
          simp only [applyOpStore, applyOp, hs, if_neg hv]
          exact findOne_saveRec_self_of_id s _ todo.id rfl
        simp only [applyOpStore, applyOp, hw]
        rw [if_neg (lt_irrefl todo.version)]
        exact saveRec_of_findOne_self F _ hw
  · exact absurd rfl hty

/-- Helper: replaying a whole DELETE-free batch with pairwise distinct ids on
the store it produced leaves the store unchanged. -/
theorem foldl_applyOpStore_replay (now : Nat) :
    ∀ (ops : List SyncOp), (∀ o ∈ ops, o.type ≠ .DELETE) →
      (ops.map (fun o => o.todo.id)).Nodup →
      ∀ s : List Todo,
        ops.foldl (applyOpStore now) (ops.foldl (applyOpStore now) s) =
          ops.foldl (applyOpStore now) s
  | [], _, _, _ => rfl
  | op :: rest, hcu, hnd, s => by
    rw [List.map_cons, List.nodup_cons] at hnd
    have hnotin : ∀ o ∈ rest, o.todo.id ≠ op.todo.id := by
      intro o ho heq
      exact hnd.1 (heq ▸ List.mem_map_of_mem _ ho)
    rw [List.foldl_cons, List.foldl_cons]
    have hstep :
        applyOpStore now (rest.foldl (applyOpStore now) (applyOpStore now s op)) op =
          rest.foldl (applyOpStore now) (applyOpStore now s op) :=
      applyOpStore_replay now s _ op (hcu op (List.mem_cons_self _ _))
        (foldl_applyOpStore_untouched now op.todo.id rest (applyOpStore now s op) hnotin)
    rw [hstep]
    exact foldl_applyOpStore_replay now rest
      (fun o ho => hcu o (List.mem_cons_of_mem _ ho)) hnd.2 (applyOpStore now s op)

/-- C6 counterexample: a DELETE replay is NOT idempotent.  With the store
holding t1 at version 4, pushing the batch [DELETE t1 (version 5)] once leaves
a tombstone at version 5; pushing the identical batch a second time (same
request time) bumps the stored version again, to 6 — per-record state is
incremented a second time, contradicting the claim that idempotence holds for
every operation type including DELETE. -/
theorem delete_replay_bumps_version_cex :
    (processSync 50 [⟨"t1", "x", false, 4, true, false, 1, 2⟩]
        [⟨.DELETE, ⟨"t1", "x", false, 5, false, true, 1, 9⟩⟩]).store =
      [⟨"t1", "x", false, 5, true, true, 1, 50⟩] ∧
    (processSync 50 [⟨"t1", "x", false, 5, true, true, 1, 50⟩]
        [⟨.DELETE, ⟨"t1", "x", false, 5, false, true, 1, 9⟩⟩]).store =
      [⟨"t1", "x", false, 6, true, true, 1, 50⟩] := by
  exact ⟨rfl, rfl⟩

/-- C6 (amended): pushing the same batch twice is idempotent on the remote
store for batches of CREATE and UPDATE operations with pairwise distinct ids —
the shape every batch built by `syncToServer` has, one operation per local
record: the store after the replay equals the store after the first push, so no
duplicate Task is created and no per-record state changes a second time; in
particular a CREATE replay whose incoming version is less than or equal to
(e.g. equals) the stored version is accepted as a no-op success, echoing the
stored record.  A DELETE replay, however, bumps the stored version again (see
the counterexample), so idempotence does not extend to DELETE. -/
theorem replay_idempotent_create_update (now : Nat) (store : List Todo)
    (ops : List SyncOp) (hcu : ∀ o ∈ ops, o.type ≠ .DELETE)
    (hnd : (ops.map (fun o => o.todo.id)).Nodup) :
    (processSync now (processSync now store ops).store ops).store =
      (processSync now store ops).store ∧
    (∀ (now2 : Nat) (st : SyncState) (op : SyncOp) (e : Todo), op.type = .CREATE →
      findOne st.store op.todo.id = some e → op.todo.version ≤ e.version →
      applyOp now2 st op = { st with results := st.results ++ [e] }) := by
  constructor
  · rw [processSync_store, processSync_store]
    exact foldl_applyOpStore_replay now ops hcu hnd store
  · intro now2 st op e ht he hv
    obtain ⟨ty, todo⟩ := op
    cases ht
    simp [applyOp, he, hv]

/-- Witness for C6 at a concrete batch: a CREATE of a (version 1) and an
UPDATE of b (version 2) against an empty store; the replayed push leaves the
store exactly as the first push did. -/
theorem replay_idempotent_create_update_witness :
    ((∀ o ∈ ([⟨.CREATE, ⟨"a", "milk", false, 1, false, false, 1, 2⟩⟩,
              ⟨.UPDATE, ⟨"b", "eggs", true, 2, false, false, 1, 3⟩⟩] : List SyncOp),
        o.type ≠ OpType.DELETE) ∧
      (([⟨.CREATE, ⟨"a", "milk", false, 1, false, false, 1, 2⟩⟩,
         ⟨.UPDATE, ⟨"b", "eggs", true, 2, false, false, 1, 3⟩⟩] : List SyncOp).map
          (fun o => o.todo.id)).Nodup) ∧
    (processSync 7
        (processSync 7 []
          [⟨.CREATE, ⟨"a", "milk", false, 1, false, false, 1, 2⟩⟩,
           ⟨.UPDATE, ⟨"b", "eggs", true, 2, false, false, 1, 3⟩⟩]).store
        [⟨.CREATE, ⟨"a", "milk", false, 1, false, false, 1, 2⟩⟩,
         ⟨.UPDATE, ⟨"b", "eggs", true, 2, false, false, 1, 3⟩⟩]).store =
      (processSync 7 []
        [⟨.CREATE, ⟨"a", "milk", false, 1, false, false, 1, 2⟩⟩,
         ⟨.UPDATE, ⟨"b", "eggs", true, 2, false, false, 1, 3⟩⟩]).store :=
  ⟨⟨by decide, by decide⟩,
    (replay_idempotent_create_update 7 []
      [⟨.CREATE, ⟨"a", "milk", false, 1, false, false, 1, 2⟩⟩,
       ⟨.UPDATE, ⟨"b", "eggs", true, 2, false, false, 1, 3⟩⟩]
      (by decide) (by decide)).1⟩

/-! ## C7: per-id version monotonicity of the remote store -/

/-- Helper: one operation never lowers the stored version of any id (and never
removes a record). -/
theorem applyOpStore_version_mono (now : Nat) (s : List Todo) (op : SyncOp) (x : String)
    (r : Todo) (h : findOne s x = some r) :
    ∃ q, findOne (applyOpStore now s op) x = some q ∧ r.version ≤ q.version := by
  by_cases hid : op.todo.id = x
  · obtain ⟨ty, todo⟩ := op
    simp only at hid
    subst hid
    cases ty
    · refine ⟨r, ?_, le_refl _⟩
      simp only [applyOpStore, applyOp, h]
      split <;> exact h
    · by_cases hv : r.version > todo.version
      · refine ⟨r, ?_, le_refl _⟩
        simp [applyOpStore, applyOp, h, hv]
      · refine ⟨{ todo with updatedAt := now }, ?_, Nat.le_of_not_lt hv⟩
        simp only [applyOpStore, applyOp, h, if_neg hv]
        exact findOne_saveRec_self_of_id s _ _ rfl
    · refine ⟨{ r with deleted := true
                       version := if todo.version ≠ 0 ∧ todo.version > r.version then
                           todo.version
                         else r.version + 1
                       updatedAt := now }, ?_, ?_⟩
      · simp only [applyOpStore, applyOp, h]
        exact findOne_saveRec_self_of_id s _ _ (findOne_id s todo.id r h)
      · simp only
        split <;> omega
  · refine ⟨r, ?_, le_refl _⟩
    rw [applyOpStore_untouched now s op x hid, h]

/-- Helper: a whole batch never lowers the stored version of any id. -/
theorem foldl_applyOpStore_version_mono (now : Nat) :
    ∀ (ops : List SyncOp) (s : List Todo) (x : String) (r : Todo),
      findOne s x = some r →
      ∃ q, findOne (ops.foldl (applyOpStore now) s) x = some q ∧ r.version ≤ q.version
  | [], _, _, r, h => ⟨r, h, le_refl _⟩
  | op :: rest, s, x, r, h => by
    obtain ⟨q, hq, hrq⟩ := applyOpStore_version_mono now s op x r h
    obtain ⟨p, hp, hqp⟩ :=
      foldl_applyOpStore_version_mono now rest (applyOpStore now s op) x q hq
    exact ⟨p, by rwa [List.foldl_cons], le_trans hrq hqp⟩

/-- C7: across any sequence of `/api/sync` batches, the stored version of each
id is monotonically non-decreasing — a record, once present, is never removed
and never replaced by one with a strictly smaller version (accepted CREATEs
leave or create records, accepted UPDATEs write a version at least as large as
the stored one, and DELETEs always bump the version). -/
theorem server_version_monotone :
    ∀ (batches : List (Nat × List SyncOp)) (store : List Todo) (x : String) (r : Todo),
      findOne store x = some r →
      ∃ q, findOne (processBatches store batches) x = some q ∧ r.version ≤ q.version
  | [], _, _, r, h => ⟨r, h, le_refl _⟩
  | (now, ops) :: rest, store, x, r, h => by
    obtain ⟨q, hq, hrq⟩ : ∃ q, findOne (processSync now store ops).store x = some q ∧
        r.version ≤ q.version := by
      rw [processSync_store]
      exact foldl_applyOpStore_version_mono now ops store x r h
    obtain ⟨p, hp, hqp⟩ := server_version_monotone rest (processSync now store ops).store x q hq
    exact ⟨p, by rwa [processBatches], le_trans hrq hqp⟩

/-- Witness for C7 at a concrete run: t1 starts at version 1 and is updated to
version 3 in one batch, then deleted in a later batch; its stored version never
decreases below 1. -/
theorem server_version_monotone_witness :
    findOne [⟨"t1", "x", false, 1, true, false, 1, 2⟩] "t1" =
      some ⟨"t1", "x", false, 1, true, false, 1, 2⟩ ∧
    ∃ q, findOne (processBatches [⟨"t1", "x", false, 1, true, false, 1, 2⟩]
          [(5, [⟨.UPDATE, ⟨"t1", "y", false, 3, false, false, 1, 4⟩⟩]),
           (8, [⟨.DELETE, ⟨"t1", "y", false, 4, false, true, 1, 7⟩⟩])]) "t1" = some q ∧
        1 ≤ q.version :=
  ⟨by decide,
    server_version_monotone
      [(5, [⟨.UPDATE, ⟨"t1", "y", false, 3, false, false, 1, 4⟩⟩]),
       (8, [⟨.DELETE, ⟨"t1", "y", false, 4, false, true, 1, 7⟩⟩])]
      [⟨"t1", "x", false, 1, true, false, 1, 2⟩] "t1"
      ⟨"t1", "x", false, 1, true, false, 1, 2⟩ (by decide)⟩

/-! ## C8: content conflicts and last-write-wins resolution -/

/-- C8 counterexample: a divergent pair with differing text and differing
non-zero versions in which the local copy is a tombstone and the remote is not
is classified `deletion`, not `content` — the deletion branch is checked first
and shadows the content classification. -/
theorem tombstone_content_classified_deletion_cex :
    detectConflicts [⟨"t1", "a", false, 2, false, true, 1, 9⟩]
      [⟨"t1", "b", false, 1, false, false, 1, 5⟩] none none =
      [⟨"t1", ⟨"t1", "a", false, 2, false, true, 1, 9⟩,
        ⟨"t1", "b", false, 1, false, false, 1, 5⟩, .deletion, none, none⟩] := by
  rfl

/-- Helper: the spec-side classifier yields `content` under the content
hypotheses. -/
theorem specClassify_content (l r : Todo) (hs : ¬ l.synced)
    (hv : l.version ≠ r.version) (hnd : ¬ (l.deleted = true ∧ r.deleted = false))
    (hdiff : l.text ≠ r.text ∨ l.completed ≠ r.completed) :
    specClassify l r = some .content := by
  unfold specClassify
  rw [if_neg hs, if_neg hv, if_neg (by simpa using hnd), if_pos hdiff]

/-- C8 (amended): for a divergent (unsynced-local) pair with differing text or
completed and differing non-zero versions, in which the local copy is not a
tombstone facing a live remote copy (that pattern is classified deletion
instead), detect classifies the pair as `content`; resolving it under
last-write-wins returns the copy with the strictly greater `updatedAt` — the
local copy winning is returned unsynced with version `remote.version + 1`, the
remote copy winning is returned marked synced — and on exactly equal
timestamps the remote copy wins. -/
theorem content_conflict_last_write_wins (l r : Todo) (lu su : Option String)
    (hid : l.id = r.id) (hs : ¬ l.synced)
    (hdiff : l.text ≠ r.text ∨ l.completed ≠ r.completed)
    (hv : l.version ≠ r.version) (hlz : l.version ≠ 0) (hrz : r.version ≠ 0)
    (hnd : ¬ (l.deleted = true ∧ r.deleted = false)) :
    detectConflicts [l] [r] lu su = [⟨l.id, l, r, .content, lu, su⟩] ∧
    (l.updatedAt > r.updatedAt →
      resolveConflict ⟨l.id, l, r, .content, lu, su⟩ .lastWriteWins =
        { l with version := r.version + 1, synced := false }) ∧
    (l.updatedAt ≤ r.updatedAt →
      resolveConflict ⟨l.id, l, r, .content, lu, su⟩ .lastWriteWins =
        { r with synced := true }) := by
  refine ⟨?_, ?_, ?_⟩
  · have hfind : ([r] : List Todo).find? (fun t => t.id == l.id) = some r := by
      simp [List.find?, hid]
    simp only [detectConflicts, hfind, conflictFor_eq_specClassify,
      specClassify_content l r hs hv hnd hdiff, Option.map]
  · intro h
    simp [resolveConflict, h]
  · intro h
    simp [resolveConflict, Nat.not_lt.mpr h]

/-- Witness for C8 at concrete inputs: a later local edit wins (version
becomes remote.version + 1, unsynced); with exactly equal timestamps the
remote copy wins, marked synced. -/
theorem content_conflict_last_write_wins_witness :
    detectConflicts [⟨"t1", "a", false, 3, false, false, 1, 9⟩]
        [⟨"t1", "b", false, 2, false, false, 1, 5⟩] none none =
      [⟨"t1", ⟨"t1", "a", false, 3, false, false, 1, 9⟩,
        ⟨"t1", "b", false, 2, false, false, 1, 5⟩, .content, none, none⟩] ∧
    resolveConflict
        ⟨"t1", ⟨"t1", "a", false, 3, false, false, 1, 9⟩,
          ⟨"t1", "b", false, 2, false, false, 1, 5⟩, .content, none, none⟩
        .lastWriteWins = ⟨"t1", "a", false, 3, false, false, 1, 9⟩ ∧
    resolveConflict
        ⟨"t1", ⟨"t1", "a", false, 3, false, false, 1, 5⟩,
          ⟨"t1", "b", false, 2, false, false, 1, 5⟩, .content, none, none⟩
        .lastWriteWins = ⟨"t1", "b", false, 2, true, false, 1, 5⟩ := by
  refine ⟨?_, ?_, ?_⟩
  · exact (content_conflict_last_write_wins
      ⟨"t1", "a", false, 3, false, false, 1, 9⟩ ⟨"t1", "b", false, 2, false, false, 1, 5⟩
      none none rfl (by decide) (by decide) (by decide) (by decide) (by decide) (by decide)).1
  · exact (content_conflict_last_write_wins
      ⟨"t1", "a", false, 3, false, false, 1, 9⟩ ⟨"t1", "b", false, 2, false, false, 1, 5⟩
      none none rfl (by decide) (by decide) (by decide) (by decide) (by decide) (by decide)).2.1
      (by decide)
  · exact (content_conflict_last_write_wins
      ⟨"t1", "a", false, 3, false, false, 1, 5⟩ ⟨"t1", "b", false, 2, false, false, 1, 5⟩
      none none rfl (by decide) (by decide) (by decide) (by decide) (by decide) (by decide)).2.2
      (by decide)

/-! ## C9: transport retry policy -/

/-- C9 counterexample: with maxRetries 3 (the value both `fetchTodos` and
`syncTodos` pass) and an always-failing call, the loop runs attempts
0, 1, 2 and 3 — four attempts in total, not three: the returned error carries
the index of the fourth attempt and three backoff sleeps were performed
(here with `Math.random() = 0`, the minimum jitter: 0.8·1000, 0.8·2000,
0.8·4000). -/
theorem retry_makes_four_attempts_cex :
    retryWithBackoff (fun n => (Except.error n : Except Nat Nat)) (fun _ => 0) 3 1000 30000 2 =
      (Except.error 3, [800, 1600, 3200]) := by
  norm_num [retryWithBackoff, retryAux]

/-- Helper: at most `remaining` retry sleeps are performed. -/
theorem retryAux_length {ε α : Type} (fn : Nat → Except ε α) (rand : Nat → ℚ)
    (d0 md m : Nat) :
    ∀ (rmn a : Nat), (retryAux fn rand d0 md m a rmn).2.length ≤ rmn
  | 0, a => by
    rw [retryAux]
    rcases hf : fn a with e | v <;> simp [hf]
  | r + 1, a => by
    rw [retryAux]
    rcases hf : fn a with e | v <;> simp [hf]
    have h := retryAux_length fn rand d0 md m r (a + 1)
    omega

/-- Helper: the i-th slept delay (0-based, counting from attempt `a`) is the
capped exponential backoff multiplied by the jitter factor drawn before that
retry. -/
theorem retryAux_getD {ε α : Type} (fn : Nat → Except ε α) (rand : Nat → ℚ)
    (d0 md m : Nat) :
    ∀ (rmn a i : Nat), i < (retryAux fn rand d0 md m a rmn).2.length →
      (retryAux fn rand d0 md m a rmn).2.getD i 0 =
        ((min (d0 * m ^ (a + i)) md : Nat) : ℚ) * (4/5 + rand (a + i) * (2/5))
  | 0, a, i, hi => by
    rw [retryAux] at hi
    rcases hf : fn a with e | v <;> simp [hf] at hi
  | r + 1, a, i, hi => by
    rcases hf : fn a with e | v
    · rcases hf2 : retryAux fn rand d0 md m (a + 1) r with ⟨res, ds⟩
      rw [retryAux] at hi ⊢
      rcases i with _ | j
      · simp [hf, hf2]
      · have hj : j < ds.length := by
          simpa [hf, hf2] using hi
        have hrec := retryAux_getD fn rand d0 md m r (a + 1) j (by rw [hf2]; exact hj)
        rw [hf2] at hrec
        rw [show a + (j + 1) = a + 1 + j by omega]
        simpa [hf, hf2] using hrec
    · rw [retryAux] at hi
      simp [hf] at hi
  termination_by rmn _ _ _ => rmn

/-- Helper: when every attempt before the last allowed one fails, the loop's
outcome is exactly the outcome of the final attempt (the last error is
re-thrown, a final success is returned). -/
theorem retryAux_exhaust {ε α : Type} (fn : Nat → Except ε α) (rand : Nat → ℚ)
    (d0 md m : Nat) :
    ∀ (rmn a : Nat), (∀ n, a ≤ n → n < a + rmn → ∃ e, fn n = Except.error e) →
      (retryAux fn rand d0 md m a rmn).1 = fn (a + rmn)
  | 0, a, _ => by
    rw [retryAux]
    rcases hf : fn a with e | v <;> simp [hf]
  | r + 1, a, h => by
    obtain ⟨e, he⟩ := h a (le_refl a) (by omega)
    have hrec := retryAux_exhaust fn rand d0 md m r (a + 1)
      (fun n h1 h2 => h n (by omega) (by omega))
    rcases hf2 : retryAux fn rand d0 md m (a + 1) r with ⟨res, ds⟩
    rw [hf2] at hrec
    rw [retryAux]
    simp only [he, hf2]
    rw [show a + (r + 1) = a + 1 + r by omega]
    exact hrec
  termination_by rmn _ _ => rmn

/-- C9 (amended): the transport retry wrapper with maxRetries 3 (used by both
`fetchTodos`, initial delay 1000 ms, and `syncTodos`, initial delay 2000 ms)
makes at most FOUR attempts in total — an initial attempt plus up to three
retries, one more than the claimed three; the delay slept before the n-th
retry equals min(initialDelay · 2^(n-1), 30000 ms) scaled by the jitter factor
0.8 + 0.4·rand drawn for that retry, hence within −20 % / +20 % of the
computed backoff; and when the first three attempts all fail the loop's
outcome is that of the fourth attempt — in particular exhausting all attempts
propagates the last error to the caller. -/
theorem retry_policy_bounds {ε α : Type} (fn : Nat → Except ε α) (rand : Nat → ℚ)
    (d0 : Nat) (hr : ∀ n, 0 ≤ rand n ∧ rand n < 1) :
    (retryWithBackoff fn rand 3 d0 30000 2).2.length ≤ 3 ∧
    (∀ i, i < (retryWithBackoff fn rand 3 d0 30000 2).2.length →
      (retryWithBackoff fn rand 3 d0 30000 2).2.getD i 0 =
        ((min (d0 * 2 ^ i) 30000 : Nat) : ℚ) * (4/5 + rand i * (2/5)) ∧
      (4/5 : ℚ) * ((min (d0 * 2 ^ i) 30000 : Nat) : ℚ) ≤
        (retryWithBackoff fn rand 3 d0 30000 2).2.getD i 0 ∧
      (retryWithBackoff fn rand 3 d0 30000 2).2.getD i 0 ≤
        (6/5 : ℚ) * ((min (d0 * 2 ^ i) 30000 : Nat) : ℚ)) ∧
    ((∀ n, n < 3 → ∃ e, fn n = Except.error e) →
      (retryWithBackoff fn rand 3 d0 30000 2).1 = fn 3) := by
  refine ⟨retryAux_length fn rand d0 30000 2 3 0, ?_, ?_⟩
  · intro i hi
    simp only [retryWithBackoff] at hi ⊢
    have hget := retryAux_getD fn rand d0 30000 2 3 0 i hi
    simp only [Nat.zero_add] at hget
    refine ⟨hget, ?_, ?_⟩
    · rw [hget]
      have h0 : (0 : ℚ) ≤ ((min (d0 * 2 ^ i) 30000 : Nat) : ℚ) := Nat.cast_nonneg _
      nlinarith [(hr i).1, (hr i).2]
    · rw [hget]
      have h0 : (0 : ℚ) ≤ ((min (d0 * 2 ^ i) 30000 : Nat) : ℚ) := Nat.cast_nonneg _
      nlinarith [(hr i).1, (hr i).2]
  · intro h
    exact retryAux_exhaust fn rand d0 30000 2 3 0 (fun n h1 h2 => h n (by omega))

/-- Witness for C9 at a concrete run: an always-failing call with constant
mid-range jitter draw 1/2 sleeps the three delays 900, 1800 and 3600 and
propagates the error of the fourth attempt. -/
theorem retry_policy_bounds_witness :
    (∀ n, (0 : ℚ) ≤ (fun _ : Nat => (1 : ℚ)/2) n ∧ (fun _ : Nat => (1 : ℚ)/2) n < 1) ∧
    (retryWithBackoff (fun n => (Except.error n : Except Nat Nat)) (fun _ => (1 : ℚ)/2)
        3 1000 30000 2).2.length ≤ 3 ∧
    ((∀ n, n < 3 → ∃ e, (fun n => (Except.error n : Except Nat Nat)) n = Except.error e) →
      (retryWithBackoff (fun n => (Except.error n : Except Nat Nat)) (fun _ => (1 : ℚ)/2)
          3 1000 30000 2).1 = Except.error 3) :=
  ⟨fun n => ⟨by norm_num, by norm_num⟩,
    (retry_policy_bounds (fun n => (Except.error n : Except Nat Nat)) (fun _ => (1 : ℚ)/2)
      1000 (fun n => ⟨by norm_num, by norm_num⟩)).1,
    fun h =>
      (retry_policy_bounds (fun n => (Except.error n : Except Nat Nat)) (fun _ => (1 : ℚ)/2)
        1000 (fun n => ⟨by norm_num, by norm_num⟩)).2.2 h⟩

/-! ## C10: forced pull replaces the Local Store wholesale -/

/-- Helper: every record of the table rebuilt by the force branch comes from a
fetched server record (the branch starts from the cleared, empty table). -/
theorem mem_force_table (now : Nat) :
    ∀ (serverTodos acc : List Todo) (r : Todo),
      r ∈ serverTodos.foldl (fun tbl s => saveRec tbl (transformServer now s)) acc →
      r ∈ acc ∨ ∃ s ∈ serverTodos, r = transformServer now s
  | [], _, r, h => Or.inl h
  | s0 :: rest, acc, r, h => by
    rcases mem_force_table now rest (saveRec acc (transformServer now s0)) r
        (by simpa using h) with h1 | ⟨s, hs, hr⟩
    · rcases mem_saveRec acc (transformServer now s0) r h1 with h2 | h2
      · exact Or.inl h2
      · exact Or.inr ⟨s0, List.mem_cons_self _ _, h2⟩
    · exact Or.inr ⟨s, List.mem_cons_of_mem _ hs, hr⟩

/-- Helper: the force branch keeps every id it has already stored. -/
theorem force_table_keeps (now : Nat) :
    ∀ (serverTodos acc : List Todo) (x : String),
      (findOne acc x).isSome →
      (findOne (serverTodos.foldl (fun tbl s => saveRec tbl (transformServer now s)) acc)
          x).isSome
  | [], _, _, h => h
  | s0 :: rest, acc, x, h => by
    rw [List.foldl_cons]
    exact force_table_keeps now rest _ x (findOne_saveRec_isSome acc _ x h)

/-- Helper: every fetched server record ends up present (under its id) in the
table the force branch rebuilds. -/
theorem force_table_mem_present (now : Nat) :
    ∀ (serverTodos acc : List Todo) (s : Todo), s ∈ serverTodos →
      (findOne (serverTodos.foldl (fun tbl s => saveRec tbl (transformServer now s)) acc)
          s.id).isSome
  | [], _, s, h => absurd h (List.not_mem_nil s)
  | s0 :: rest, acc, s, h => by
    rw [List.foldl_cons]
    rcases List.mem_cons.mp h with h1 | h1
    · subst h1
      refine force_table_keeps now rest _ s.id ?_
      rw [findOne_saveRec_self_of_id acc (transformServer now s) s.id rfl]
      rfl
    · exact force_table_mem_present now rest _ s h1

/-- C10: a successful pull with forceServerWins = true ignores the in-flight
flag and all local state: the Local Store is cleared and repopulated as
exactly the fetched remote records (each re-dated and marked synced = true);
every record in the resulting table is a transformed fetched record marked
synced, every fetched id is present, and every record that existed only
locally — including unsynced pending creates the remote store never saw — is
gone from the table. -/
theorem force_pull_replaces_local_store (localTodos serverTodos : List Todo)
    (ip : Bool) (u : String) (now : Nat) :
    fetchFromServer true ip true localTodos (some serverTodos) u now =
      .applied (serverTodos.foldl (fun tbl s => saveRec tbl (transformServer now s)) []) ∧
    (∀ r ∈ serverTodos.foldl (fun tbl s => saveRec tbl (transformServer now s))
        ([] : List Todo),
      r.synced = true ∧ ∃ s ∈ serverTodos, r = transformServer now s) ∧
    (∀ s ∈ serverTodos,
      (findOne (serverTodos.foldl (fun tbl s => saveRec tbl (transformServer now s)) [])
          s.id).isSome) ∧
    (∀ t ∈ localTodos, (∀ s ∈ serverTodos, s.id ≠ t.id) →
      findOne (serverTodos.foldl (fun tbl s => saveRec tbl (transformServer now s)) [])
        t.id = none) := by
  refine ⟨by simp [fetchFromServer], ?_, ?_, ?_⟩
  · intro r hr
    rcases mem_force_table now serverTodos [] r hr with h | ⟨s, hs, hr'⟩
    · simp at h
    · exact ⟨by rw [hr']; rfl, s, hs, hr'⟩
  · intro s hs
    exact force_table_mem_present now serverTodos [] s hs
  · intro t ht hnone
    refine findOne_none _ t.id ?_
    intro r hr
    rcases mem_force_table now serverTodos [] r hr with h | ⟨s, hs, hr'⟩
    · simp at h
    · rw [hr']
      exact hnone s hs

/-- Witness for C10 at a concrete input: an unsynced pending local create is
removed, the fetched remote record is stored marked synced. -/
theorem force_pull_replaces_local_store_witness :
    fetchFromServer true true true [⟨"mine", "pending", false, 1, false, false, 1, 2⟩]
        (some [⟨"t1", "x", false, 4, false, false, 1, 3⟩]) "Me" 99 =
      .applied [⟨"t1", "x", false, 4, true, false, 1, 3⟩] ∧
    findOne [⟨"t1", "x", false, 4, true, false, 1, 3⟩] "mine" = none := by
  have h := force_pull_replaces_local_store
    [⟨"mine", "pending", false, 1, false, false, 1, 2⟩]
    [⟨"t1", "x", false, 4, false, false, 1, 3⟩] true "Me" 99
  refine ⟨?_, ?_⟩
  · exact h.1
  · exact h.2.2.2 ⟨"mine", "pending", false, 1, false, false, 1, 2⟩ (by simp) (by decide)

end OfflineTodo
